import Mathlib

/-!
Verification of `src/crates/jxl-oxide-cli/src/output/ffmpeg_log.c`
(function `jxl_oxide_ffmpeg_log_c`), a bridge that renders a C variadic
logging callback into a bounded buffer and forwards it to the external
sink `jxl_oxide_ffmpeg_log`.

The C source is:

  void jxl_oxide_ffmpeg_log_c(void *avcl, int level, const char *fmt, va_list vl) {
    char *buf = malloc(65536);
    if (buf == NULL) {
      return;
    }
    vsnprintf(buf, 65536, fmt, vl);
    jxl_oxide_ffmpeg_log(avcl, level, buf);
    free(buf);
  }

Shallow embedding: the observable behaviour of one invocation is a list
of events (the attempted allocation, the sink call with the forwarded
triple, the buffer release).  The allocation outcome (`malloc` returning
NULL or not) is an explicit input.  `vsnprintf` is a libc function, not
code of this repository; it is modelled from its standard semantics:
it writes at most `cap - 1` characters of the full printf expansion of
`(fmt, vl)` into the buffer followed by a NUL terminator, never writing
past `cap` bytes.  The printf expansion itself is modelled by a small
interpreter `printfExpand` covering the `%%`, `%d`, `%s` and `%c`
conversions; every claim about rendering is parametric in the expansion
it produces, so the exact set of conversions modelled is immaterial.
-/

/-- The NUL character terminating a C string. -/
def nul : Char := Char.ofNat 0

/-- A variadic argument, as consumed by the modelled printf conversions. -/
inductive PArg where
  | int (n : Int)
  | str (s : List Char)
  | chr (c : Char)
deriving DecidableEq

/-- Decimal digit character for `d % 10`. -/
def digitChar (d : Nat) : Char := Char.ofNat (48 + d % 10)

/-- Decimal rendering of a natural number, most significant digit first. -/
def natToChars (n : Nat) : List Char :=
  if n < 10 then [digitChar n]
  else natToChars (n / 10) ++ [digitChar (n % 10)]
decreasing_by
  exact Nat.div_lt_self (by omega) (by omega)

/-- Decimal rendering of an integer (`%d`). -/
def intToChars (n : Int) : List Char :=
  if n < 0 then '-' :: natToChars n.natAbs else natToChars n.toNat

/-- Modelled from the spec: "standard printf-style substitution
semantics" of the libc `vsnprintf` (not code of this repository).  The
full (untruncated) expansion of a format string against an argument
list.  A `%` introducing a conversion the model does not cover (or whose
argument is missing or of the wrong kind, a producer contract violation
the spec leaves undefined in content) is emitted literally. -/
def printfExpand : List Char → List PArg → List Char
  | [], _ => []
  | c :: rest, vl =>
    if c = '%' then
      match rest, vl with
      | '%' :: rest2, vl2 => '%' :: printfExpand rest2 vl2
      | 'd' :: rest2, PArg.int n :: vl2 => intToChars n ++ printfExpand rest2 vl2
      | 's' :: rest2, PArg.str s :: vl2 => s ++ printfExpand rest2 vl2
      | 'c' :: rest2, PArg.chr ch :: vl2 => ch :: printfExpand rest2 vl2
      | rest, vl => '%' :: printfExpand rest vl
    else
      c :: printfExpand rest vl

/-- The fixed buffer capacity passed to `malloc` and `vsnprintf`. -/
def capacity : Nat := 65536

/-- Modelled from the standard semantics of libc `vsnprintf` (not code
of this repository): the bytes it writes into a buffer of capacity
`cap`, namely at most `cap - 1` characters of the full expansion
followed by a NUL terminator. -/
def vsnprintfBuf (cap : Nat) (expansion : List Char) : List Char :=
  expansion.take (cap - 1) ++ [nul]

/-- Reading a buffer as a C string: the characters before the first NUL.
This is the message value the sink receives through its `const char *`
argument. -/
def cString (buf : List Char) : List Char :=
  buf.takeWhile fun c => c != nul

/-- Observable events of one invocation, in program order: the `malloc`
attempt (with requested size and outcome), the call to the sink
`jxl_oxide_ffmpeg_log` with the forwarded triple, and `free`. -/
inductive Event (Ctx : Type) where
  | alloc (size : Nat) (ok : Bool)
  | sink (avcl : Ctx) (level : Int) (msg : List Char)
  | free
deriving DecidableEq

/-- The embedding of `jxl_oxide_ffmpeg_log_c`: given the opaque context
`avcl`, the severity `level`, the format string, the argument list and
the outcome of the `malloc` call, it produces the ordered list of
observable events of the invocation.  The function is total: every
invocation returns normally (the C function returns `void` and has no
failure exit other than the silent early return on allocation
failure). -/
def jxl_oxide_ffmpeg_log_c {Ctx : Type} (avcl : Ctx) (level : Int)
    (fmt : List Char) (vl : List PArg) (allocOk : Bool) : List (Event Ctx) :=
  if allocOk then
    [Event.alloc capacity true,
     Event.sink avcl level (cString (vsnprintfBuf capacity (printfExpand fmt vl))),
     Event.free]
  else
    [Event.alloc capacity false]

/-- Whether an event is a sink call. -/
def isSink {Ctx : Type} : Event Ctx → Bool
  | Event.sink _ _ _ => true
  | _ => false

/-- Whether an event is a buffer release. -/
def isRelease {Ctx : Type} : Event Ctx → Bool
  | Event.free => true
  | _ => false

/-- Whether an event is a successful allocation. -/
def isAllocOk {Ctx : Type} : Event Ctx → Bool
  | Event.alloc _ ok => ok
  | _ => false

/-- Number of sink calls in a trace. -/
def sinkCount {Ctx : Type} (tr : List (Event Ctx)) : Nat :=
  (tr.filter isSink).length

/-- Number of buffer releases in a trace. -/
def releaseCount {Ctx : Type} (tr : List (Event Ctx)) : Nat :=
  (tr.filter isRelease).length

/-- Number of successful allocations in a trace. -/
def allocOkCount {Ctx : Type} (tr : List (Event Ctx)) : Nat :=
  (tr.filter isAllocOk).length

/-- One queued invocation of the bridge, with its allocation outcome. -/
structure Invocation (Ctx : Type) where
  avcl : Ctx
  level : Int
  fmt : List Char
  vl : List PArg
  allocOk : Bool
deriving DecidableEq

/-- A sequence of invocations, each producing its own trace.  The C
function reads and writes no global state (its only non-local effects
are the per-call `malloc`/`free` pair and the sink call), so a sequence
of calls is the per-call function mapped over the inputs. -/
def runSequence {Ctx : Type} (invs : List (Invocation Ctx)) : List (List (Event Ctx)) :=
  invs.map fun i => jxl_oxide_ffmpeg_log_c i.avcl i.level i.fmt i.vl i.allocOk

/-- Reading back a NUL-terminated buffer recovers exactly the characters
written before the terminator, provided they contain no NUL. -/
theorem cString_append_nul (s : List Char) (h : nul ∉ s) : cString (s ++ [nul]) = s := by
  induction s with
  | nil => simp [cString]
  | cons c t ih =>
    simp only [List.mem_cons, not_or] at h
    have hc : (fun x => x != nul) c = true := by
      simp only [bne_iff_ne, ne_eq]
      exact fun e => h.1 (e ▸ rfl)
    have ht := ih h.2
    simp only [cString, List.cons_append] at *
    rw [List.takeWhile_cons_of_pos (p := fun x => x != nul) (l := t ++ [nul]) hc, ht]

/-- The buffer `vsnprintf` leaves behind, read back as a C string, is
the expansion truncated to `capacity - 1` characters, provided the
expansion contains no NUL (as is the case for any expansion realizable
from C strings, which cannot contain interior NUL). -/
theorem cString_vsnprintfBuf (e : List Char) (hnul : nul ∉ e) :
    cString (vsnprintfBuf capacity e) = e.take (capacity - 1) := by
  unfold vsnprintfBuf
  exact cString_append_nul _ fun hm => hnul (List.take_subset _ _ hm)

example : printfExpand "ab %d cd".data [PArg.int 42] = "ab 42 cd".data := by
  simp [printfExpand, intToChars, natToChars, digitChar]

example : printfExpand [] [] = [] := rfl

example : cString (vsnprintfBuf capacity "hi".data) = "hi".data := by decide

example :
    jxl_oxide_ffmpeg_log_c (3 : Nat) (-5) "hi".data [] true =
      [Event.alloc 65536 true, Event.sink 3 (-5) "hi".data, Event.free] := by
  decide

/-- C1: when allocation succeeds and the printf expansion of
`(format, args)` has length at most `capacity - 1` (65535), the message
passed to the sink equals exactly that expansion.  The expansion is
assumed NUL-free, as any expansion realizable from C strings is. -/
theorem C1_exact_forwarding {Ctx : Type} (avcl : Ctx) (level : Int)
    (fmt : List Char) (vl : List PArg)
    (hnul : nul ∉ printfExpand fmt vl)
    (hlen : (printfExpand fmt vl).length ≤ capacity - 1) :
    jxl_oxide_ffmpeg_log_c avcl level fmt vl true =
      [Event.alloc capacity true,
       Event.sink avcl level (printfExpand fmt vl),
       Event.free] := by
  have hmsg : cString (vsnprintfBuf capacity (printfExpand fmt vl)) = printfExpand fmt vl := by
    rw [cString_vsnprintfBuf _ hnul, List.take_of_length_le hlen]
  show
    [Event.alloc capacity true,
     Event.sink avcl level (cString (vsnprintfBuf capacity (printfExpand fmt vl))),
     Event.free] = _
  rw [hmsg]

/-- Witness for C1 at the concrete input `("jxl: %s!", ["ok"])`. -/
theorem C1_exact_forwarding_witness :
    nul ∉ printfExpand "jxl: %s!".data [PArg.str "ok".data] ∧
    (printfExpand "jxl: %s!".data [PArg.str "ok".data]).length ≤ capacity - 1 ∧
    jxl_oxide_ffmpeg_log_c (0 : Nat) 16 "jxl: %s!".data [PArg.str "ok".data] true =
      [Event.alloc capacity true,
       Event.sink 0 16 (printfExpand "jxl: %s!".data [PArg.str "ok".data]),
       Event.free] :=
  ⟨by decide, by decide,
   C1_exact_forwarding 0 16 "jxl: %s!".data [PArg.str "ok".data] (by decide) (by decide)⟩

/-- C2: when allocation succeeds and the full expansion would exceed
`capacity - 1` characters, the buffer acquired has size exactly 65536,
the forwarded message is the first 65535 characters of the expansion,
the buffer holds exactly `capacity` bytes (rendering never writes past
the allocated capacity), and its last byte is the NUL terminator. -/
theorem C2_truncated_forwarding {Ctx : Type} (avcl : Ctx) (level : Int)
    (fmt : List Char) (vl : List PArg)
    (hnul : nul ∉ printfExpand fmt vl)
    (hlen : capacity - 1 < (printfExpand fmt vl).length) :
    jxl_oxide_ffmpeg_log_c avcl level fmt vl true =
      [Event.alloc capacity true,
       Event.sink avcl level ((printfExpand fmt vl).take (capacity - 1)),
       Event.free] ∧
    ((printfExpand fmt vl).take (capacity - 1)).length = capacity - 1 ∧
    (vsnprintfBuf capacity (printfExpand fmt vl)).length = capacity ∧
    (vsnprintfBuf capacity (printfExpand fmt vl)).getLast? = some nul := by
  have htake : ((printfExpand fmt vl).take (capacity - 1)).length = capacity - 1 := by
    rw [List.length_take]
    exact Nat.min_eq_left (Nat.le_of_lt hlen)
  refine ⟨?_, htake, ?_, ?_⟩
  · have hmsg := cString_vsnprintfBuf (printfExpand fmt vl) hnul
    show
      [Event.alloc capacity true,
       Event.sink avcl level (cString (vsnprintfBuf capacity (printfExpand fmt vl))),
       Event.free] = _
    rw [hmsg]
  · simp only [vsnprintfBuf, List.length_append, List.length_cons, List.length_nil, htake]
    simp [capacity]
  · simp [vsnprintfBuf]

/-- Witness for C2 at the concrete input `("%s", [70000 copies of the
character a])`, whose expansion has length 70000 > 65535. -/
theorem C2_truncated_forwarding_witness :
    nul ∉ printfExpand "%s".data [PArg.str (List.replicate 70000 'a')] ∧
    capacity - 1 < (printfExpand "%s".data [PArg.str (List.replicate 70000 'a')]).length ∧
    (jxl_oxide_ffmpeg_log_c (0 : Nat) 24 "%s".data [PArg.str (List.replicate 70000 'a')] true =
      [Event.alloc capacity true,
       Event.sink 0 24 ((printfExpand "%s".data [PArg.str (List.replicate 70000 'a')]).take (capacity - 1)),
       Event.free] ∧
    ((printfExpand "%s".data [PArg.str (List.replicate 70000 'a')]).take (capacity - 1)).length = capacity - 1 ∧
    (vsnprintfBuf capacity (printfExpand "%s".data [PArg.str (List.replicate 70000 'a')])).length = capacity ∧
    (vsnprintfBuf capacity (printfExpand "%s".data [PArg.str (List.replicate 70000 'a')])).getLast? = some nul) := by
  have hred : printfExpand "%s".data [PArg.str (List.replicate 70000 'a')] =
      List.replicate 70000 'a' ++ [] := rfl
  have hnul : nul ∉ printfExpand "%s".data [PArg.str (List.replicate 70000 'a')] := by
    rw [hred]
    simp only [List.append_nil, List.mem_replicate]
    intro h
    exact absurd h.2 (by decide)
  have hlen : capacity - 1 < (printfExpand "%s".data [PArg.str (List.replicate 70000 'a')]).length := by
    rw [hred]
    simp only [List.append_nil, List.length_replicate, capacity]
    omega
  exact ⟨hnul, hlen,
    C2_truncated_forwarding 0 24 "%s".data [PArg.str (List.replicate 70000 'a')] hnul hlen⟩

/-- C3: when allocation fails (`malloc` returns NULL), the sink is never
called, nothing is released, and the invocation produces only the failed
allocation event — the function returns normally as a silent no-op
(the embedding is a total function, so every invocation returns). -/
theorem C3_alloc_failure_silent {Ctx : Type} (avcl : Ctx) (level : Int)
    (fmt : List Char) (vl : List PArg) :
    jxl_oxide_ffmpeg_log_c avcl level fmt vl false = [Event.alloc capacity false] ∧
    sinkCount (jxl_oxide_ffmpeg_log_c avcl level fmt vl false) = 0 ∧
    releaseCount (jxl_oxide_ffmpeg_log_c avcl level fmt vl false) = 0 :=
  ⟨rfl, rfl, rfl⟩

/-- C4: the context and level passed to the sink are identical to the
context and level received by the bridge, for an arbitrary opaque
context type and any integer level, on every allocation outcome. -/
theorem C4_context_level_passthrough {Ctx : Type} (avcl : Ctx) (level : Int)
    (fmt : List Char) (vl : List PArg) (allocOk : Bool)
    (c : Ctx) (l : Int) (m : List Char)
    (hmem : Event.sink c l m ∈ jxl_oxide_ffmpeg_log_c avcl level fmt vl allocOk) :
    c = avcl ∧ l = level := by
  cases allocOk with
  | false => simp [jxl_oxide_ffmpeg_log_c] at hmem
  | true =>
    simp only [jxl_oxide_ffmpeg_log_c, if_true, List.mem_cons, List.mem_singleton,
      List.not_mem_nil, or_false] at hmem
    rcases hmem with h | h | h
    · exact absurd h (by simp)
    · have := Event.sink.inj h
      exact ⟨this.1, this.2.1⟩
    · exact absurd h (by simp)

/-- Witness for C4 at a concrete invocation with a null-like context
handle and the most negative 32-bit level value. -/
theorem C4_context_level_passthrough_witness :
    (3 : Nat) = 3 ∧ (-2147483648 : Int) = -2147483648 :=
  C4_context_level_passthrough 3 (-2147483648) "x".data [] true 3 (-2147483648)
    "x".data (by decide)

/-- C5: the number of sink calls per invocation is exactly 1 when
allocation succeeds and exactly 0 when it fails, hence never more than
one. -/
theorem C5_sink_call_count {Ctx : Type} (avcl : Ctx) (level : Int)
    (fmt : List Char) (vl : List PArg) (allocOk : Bool) :
    sinkCount (jxl_oxide_ffmpeg_log_c avcl level fmt vl allocOk) =
      (if allocOk then 1 else 0) ∧
    sinkCount (jxl_oxide_ffmpeg_log_c avcl level fmt vl allocOk) ≤ 1 := by
  cases allocOk with
  | true => exact ⟨rfl, Nat.le_refl 1⟩
  | false => exact ⟨rfl, Nat.zero_le 1⟩

/-- C6: the buffer is released exactly once on the successful-allocation
path and zero times on the failure path; releases always balance
successful allocations (no leak, no double release). -/
theorem C6_release_balance {Ctx : Type} (avcl : Ctx) (level : Int)
    (fmt : List Char) (vl : List PArg) (allocOk : Bool) :
    releaseCount (jxl_oxide_ffmpeg_log_c avcl level fmt vl allocOk) =
      allocOkCount (jxl_oxide_ffmpeg_log_c avcl level fmt vl allocOk) ∧
    releaseCount (jxl_oxide_ffmpeg_log_c avcl level fmt vl allocOk) =
      (if allocOk then 1 else 0) := by
  cases allocOk with
  | true => exact ⟨rfl, rfl⟩
  | false => exact ⟨rfl, rfl⟩

/-- C7: the bridge is stateless and deterministic: in any sequence of
invocations, the trace of the i-th invocation depends only on the i-th
input (context, level, format, args, allocation outcome), never on
earlier or later invocations. -/
theorem C7_stateless_deterministic {Ctx : Type} (l1 l2 : List (Invocation Ctx)) (i : Nat)
    (h : l1[i]? = l2[i]?) :
    (runSequence l1)[i]? = (runSequence l2)[i]? := by
  simp only [runSequence, List.getElem?_map, h]

/-- Witness for C7: two sequences that differ in their first invocation
but agree at index 1 produce the same trace at index 1. -/
theorem C7_stateless_deterministic_witness :
    ([Invocation.mk (0 : Nat) 0 "a".data [] true, Invocation.mk 1 2 "b".data [] true][1]? =
      [Invocation.mk (9 : Nat) 9 "z".data [] false, Invocation.mk 1 2 "b".data [] true][1]?) ∧
    ((runSequence [Invocation.mk (0 : Nat) 0 "a".data [] true, Invocation.mk 1 2 "b".data [] true])[1]? =
      (runSequence [Invocation.mk (9 : Nat) 9 "z".data [] false, Invocation.mk 1 2 "b".data [] true])[1]?) :=
  ⟨rfl, C7_stateless_deterministic
    [Invocation.mk (0 : Nat) 0 "a".data [] true, Invocation.mk 1 2 "b".data [] true]
    [Invocation.mk (9 : Nat) 9 "z".data [] false, Invocation.mk 1 2 "b".data [] true]
    1 rfl⟩

/-- C8: every invocation terminates with a bounded trace (the embedding
is a total function producing at most 3 events), and the rendering
writes at most `capacity` bytes, and at most one byte more than the
length of the full expansion — bounded work proportional to the input
and the fixed capacity, with no unbounded loop or recursion. -/
theorem C8_bounded_termination {Ctx : Type} (avcl : Ctx) (level : Int)
    (fmt : List Char) (vl : List PArg) (allocOk : Bool) :
    (jxl_oxide_ffmpeg_log_c avcl level fmt vl allocOk).length ≤ 3 ∧
    (vsnprintfBuf capacity (printfExpand fmt vl)).length ≤ capacity ∧
    (vsnprintfBuf capacity (printfExpand fmt vl)).length ≤ (printfExpand fmt vl).length + 1 := by
  refine ⟨?_, ?_, ?_⟩
  · cases allocOk with
    | true => exact Nat.le_refl 3
    | false =>
      show 1 ≤ 3
      omega
  · simp only [vsnprintfBuf, List.length_append, List.length_cons, List.length_nil,
      List.length_take, capacity]
    omega
  · simp only [vsnprintfBuf, List.length_append, List.length_cons, List.length_nil,
      List.length_take]
    omega

/-- C9: on the successful-allocation path the buffer release happens
strictly after the sink call: in the event trace, every sink event
occurs at a strictly earlier position than every release event. -/
theorem C9_release_after_sink {Ctx : Type} (avcl : Ctx) (level : Int)
    (fmt : List Char) (vl : List PArg) (allocOk : Bool)
    (i j : Nat) (c : Ctx) (l : Int) (m : List Char)
    (hi : (jxl_oxide_ffmpeg_log_c avcl level fmt vl allocOk)[i]? = some (Event.sink c l m))
    (hj : (jxl_oxide_ffmpeg_log_c avcl level fmt vl allocOk)[j]? = some Event.free) :
    i < j := by
  cases allocOk with
  | false =>
    exfalso
    rcases i with _ | i
    · simp [jxl_oxide_ffmpeg_log_c] at hi
    · simp [jxl_oxide_ffmpeg_log_c] at hi
  | true =>
    have hi1 : i = 1 := by
      rcases i with _ | _ | _ | i
      · simp [jxl_oxide_ffmpeg_log_c] at hi
      · rfl
      · simp [jxl_oxide_ffmpeg_log_c] at hi
      · simp [jxl_oxide_ffmpeg_log_c] at hi
    have hj2 : j = 2 := by
      rcases j with _ | _ | _ | j
      · simp [jxl_oxide_ffmpeg_log_c] at hj
      · simp [jxl_oxide_ffmpeg_log_c] at hj
      · rfl
      · simp [jxl_oxide_ffmpeg_log_c] at hj
    rw [hi1, hj2]
    exact Nat.lt_succ_self 1

/-- Witness for C9: in the concrete success trace the sink event is at
index 1 and the release at index 2, and indeed 1 < 2. -/
theorem C9_release_after_sink_witness : 1 < 2 :=
  C9_release_after_sink (0 : Nat) 7 "hi".data [] true 1 2 0 7 "hi".data
    (by decide) (by decide)

/-- C10: for an empty format string (and any args), a successful
invocation still calls the sink exactly once, with a zero-length message
whose buffer consists of just the NUL terminator — forwarding is never
suppressed based on message content or length. -/
theorem C10_empty_format {Ctx : Type} (avcl : Ctx) (level : Int) (vl : List PArg) :
    jxl_oxide_ffmpeg_log_c avcl level [] vl true =
      [Event.alloc capacity true, Event.sink avcl level [], Event.free] ∧
    sinkCount (jxl_oxide_ffmpeg_log_c avcl level [] vl true) = 1 ∧
    vsnprintfBuf capacity (printfExpand [] vl) = [nul] :=
  ⟨rfl, rfl, rfl⟩
